import Mathlib

/-!
Verification development for the house-price choropleth repository.

The repository contains two Python entry points:
* `houseprice_visualization_streamlit.py` (embedded below in namespace `StApp`):
  fetches one index value per (region, month) from the statistics API,
  collects them, computes a percentage change per region between the two
  series dates nearest to the user's start/end dates, joins the results onto
  GeoJSON features by region name, and colors them through a matplotlib
  `Normalize` + `RdYlGn` colormap.
* `main.py` (embedded below in namespace `MainApp`): bulk-fetches the whole
  table once, computes per-region change with exact-start / first-in-range
  selection and zero substitution for missing values, and renders a folium
  choropleth.

Dates are modelled as integers (a month timestamp; only order and distance
matter to the code).  Index values are modelled as rationals, idealizing
Python floats.  Fallible code paths (bare `except`, pandas `.iloc[0]` on an
empty selection, `min` over an empty column) are modelled with `Option`.
-/

/-- One row of the remote API response: the `CLS_ID` and `DTA_VAL` fields of
`j["SttsApiTblData"][1]["row"][i]` read by `fetch_index`. -/
structure ApiRow where
  clsId : String
  dtaVal : ℚ
  deriving DecidableEq

/-- Outcome of one HTTP GET in `fetch_index`: either some exception was raised
(network error, timeout, JSON parse failure, missing key, bad float — all
caught by the bare `except`), or a response arrived with a status code and a
(possibly empty) `row` list. -/
inductive FetchOutcome where
  | exn : FetchOutcome
  | ok : Nat → List ApiRow → FetchOutcome
  deriving DecidableEq

/-- A fetched observation: the dict `{날짜, CLS_ID, 매매지수}` built by
`fetch_index` (date comes from the requested month, region code and value
from the first response row). -/
structure FetchRow where
  date : Int
  clsId : String
  val : ℚ
  deriving DecidableEq

/-- Embedding of `fetch_index(cls_id, yyyymm)` from
`houseprice_visualization_streamlit.py`: returns `None` on any exception, on
a non-200 status, or on an empty `row` list; otherwise builds the observation
from the first row. -/
def fetch_index (clsId : String) (yyyymm : Int) (o : FetchOutcome) : Option FetchRow :=
  match o with
  | .exn => none
  | .ok status rows =>
    if status ≠ 200 then none
    else
      match rows with
      | [] => none
      | r :: _ => some ⟨yyyymm, r.clsId, r.dtaVal⟩

/-- Embedding of `pd.period_range(start, end, freq="M")`: the closed run of
months from `s` to `e` (empty when `s > e`). -/
def period_range (s e : Int) : List Int :=
  (List.range (e + 1 - s).toNat).map (fun i => s + Int.ofNat i)

/-- The task list `[(cid, y) for y in periods for cid in cls_ids]` built by
`batch_fetch`: months-major enumeration of the cartesian product. -/
def fetch_tasks (cls_ids : List String) (sM eM : Int) : List (String × Int) :=
  (period_range sM eM).flatMap (fun y => cls_ids.map (fun c => (c, y)))

/-- One row of the collected dataframe `df_full` after `batch_fetch` attached
the region name column `CLS_NM`. -/
structure SRow where
  date : Int
  clsId : String
  clsNm : String
  val : ℚ
  deriving DecidableEq

/-- Embedding of `batch_fetch` from `houseprice_visualization_streamlit.py`.
`outcome c y` is the network's behaviour for the request `(c, y)`;
`executor.map` yields results in task order, `if rec:` drops the `None`
results, then `CLS_ID` is mapped through the code→name table and rows whose
code has no entry are removed by `dropna(subset=["CLS_NM"])`. -/
def batch_fetch (cls_ids : List String) (sM eM : Int)
    (nameMap : String → Option String) (outcome : String → Int → FetchOutcome) :
    List SRow :=
  let results := (fetch_tasks cls_ids sM eM).filterMap
    (fun t => fetch_index t.1 t.2 (outcome t.1 t.2))
  results.filterMap (fun r => (nameMap r.clsId).map (fun nm => ⟨r.date, r.clsId, nm, r.val⟩))

/-- Embedding of pandas `Series.unique()` over a key column: the keys in
order of first occurrence. -/
def uniqueKeys (l : List String) : List String :=
  l.foldl (fun acc c => if c ∈ acc then acc else acc ++ [c]) []

/-- Left-to-right `Option` traversal: Python's row-building loop, which
raises (modelled `none`) at the first failing element. -/
def mapOpt (f : α → Option β) : List α → Option (List β)
  | [] => some ([])
  | a :: as =>
    match f a with
    | none => none
    | some b => (mapOpt f as).map (fun bs => b :: bs)

/-- Python's `round(x, 2)`: rounding to two decimal places, idealized over ℚ. -/
def round2 (x : ℚ) : ℚ := (round (x * 100) : ℤ) / 100

namespace StApp

/-- The accumulator of Python's `min(dates, key=lambda x: abs(x - target))`:
fold that replaces the current best only on a strictly smaller key, so the
first element attaining the minimum wins. -/
def st_fold (target : Int) (b : Int) (ds : List Int) : Int :=
  ds.foldl (fun best x => if |x - target| < |best - target| then x else best) b

/-- The date selection of `calc_change` in
`houseprice_visualization_streamlit.py`:
`min(df["날짜"], key=lambda x: abs(x - target))`, `none` on an empty column
(Python would raise `ValueError`). -/
def st_sel (dates : List Int) (target : Int) : Option Int :=
  match dates with
  | [] => none
  | d :: ds => some (st_fold target d ds)

/-- One output row of the streamlit `calc_change` (지역코드, 지역명, 시작지수,
종료지수, 증감률).  `rate` is `none` when the start index is `0`: the Python
code divides by it unguarded, producing a non-finite float. -/
structure StRow where
  clsId : String
  clsNm : String
  startIdx : ℚ
  endIdx : ℚ
  rate : Option ℚ
  deriving DecidableEq

/-- Embedding of `calc_change(df, start_date, end_date)` from
`houseprice_visualization_streamlit.py`: select the series dates nearest to
each target, slice the frame at those two dates, and build one row per
region code occurring in the start slice.  `df_e[...].iloc[0]` raises
`IndexError` when the region has no row at the selected end date: modelled
by the `Option` result. -/
def calc_change (df : List SRow) (startD endD : Int) : Option (List StRow) :=
  match st_sel (df.map (·.date)) startD, st_sel (df.map (·.date)) endD with
  | some s, some e =>
    let df_s := df.filter (fun r => r.date = s)
    let df_e := df.filter (fun r => r.date = e)
    mapOpt (fun c =>
      match df_s.find? (fun r => r.clsId = c), df_e.find? (fun r => r.clsId = c) with
      | some rs, some re =>
        some ⟨c, rs.clsNm, round2 rs.val, round2 re.val,
          if rs.val = 0 then none else some (round2 ((re.val - rs.val) / rs.val * 100))⟩
      | _, _ => none)
      (uniqueKeys (df_s.map (·.clsId)))
  | _, _ => none

/-- A GeoJSON feature as used by the join: only its `SIG_KOR_NM` name is
consulted. -/
structure GeoFeat where
  name : String
  deriving DecidableEq

/-- One row of the merged geodataframe: the feature name plus the change row
attached to it (none for a left-join miss). -/
structure MergedRow where
  name : String
  res : Option StRow
  deriving DecidableEq

/-- Embedding of `merge_geo_data(geo_df, result_df)`: pandas
`geo_df.merge(result_df, left_on="SIG_KOR_NM", right_on="지역명", how="left")`.
A left merge emits one output row per (left row, matching right row) pair,
in left order then right order, and a single null-extended row when nothing
matches. -/
def merge_one (res : List StRow) (g : GeoFeat) : List MergedRow :=
  match res.filter (fun r => r.clsNm = g.name) with
  | [] => [⟨g.name, none⟩]
  | ms => ms.map (fun r => ⟨g.name, some r⟩)

def merge_geo_data (geo : List GeoFeat) (res : List StRow) : List MergedRow :=
  geo.flatMap (merge_one res)

/-- Python's `name.endswith(suffix_)` on the click drill-down. -/
def ends_with (s sfx : String) : Bool := List.isSuffixOf sfx.data s.data

/-- Python's `str.strip()`: drop leading and trailing whitespace. -/
def strip (s : String) : String :=
  ⟨((s.data.dropWhile Char.isWhitespace).reverse.dropWhile Char.isWhitespace).reverse⟩

/-- Embedding of the click drill-down match loop in the streamlit
`__main__` block: iterate the code→name table in order, return the first
code whose name ends with the stripped clicked name. -/
def find_matched_code (tbl : List (String × String)) (clicked : String) : Option String :=
  (tbl.find? (fun p => ends_with p.2 (strip clicked))).map (fun p => p.1)

/-- Embedding of `create_colormap(min_val, max_val)`: matplotlib
`Normalize(vmin, vmax)` followed by the `RdYlGn` colormap.  The ramp is an
injective red→yellow→green gradient, so a color is identified with its
position in `[0,1]` on the ramp: position `0` is the red extreme, `1/2` the
neutral yellow midpoint, `1` the green extreme.  `Normalize` maps `v` to
`(v - vmin)/(vmax - vmin)` and, per matplotlib's degenerate branch, to `0`
when `vmin == vmax`. -/
def create_colormap (minV maxV : ℚ) : ℚ → ℚ :=
  fun v => if minV = maxV then 0 else (v - minV) / (maxV - minV)

end StApp

namespace MainApp

/-- One observation row of `df_full` in `main.py` (날짜, CLS_ID, 매매지수). -/
structure Obs where
  clsId : String
  date : Int
  val : ℚ
  deriving DecidableEq

/-- One output row of `calc_change` in `main.py` (CLS_ID, 증감률). -/
structure ResRow where
  clsId : String
  rate : ℚ
  deriving DecidableEq

/-- The end-value selection of `main.py`'s `calc_change`:
`df_e[df_e["CLS_ID"] == c]["매매지수"].iloc[0]` where
`df_e = df_full[(날짜 >= start) & (날짜 <= end)]` — the first in-range
observation of the region in input order. -/
def sel_end (df : List Obs) (startD endD : Int) (c : String) : Option Obs :=
  (df.filter (fun r => startD ≤ r.date ∧ r.date ≤ endD)).find? (fun r => r.clsId = c)

/-- The start-value selection of `main.py`'s `calc_change`:
`df_s = df_full[(날짜 >= start) & (날짜 <= start)]` — the first observation
of the region dated exactly the start date. -/
def sel_start (df : List Obs) (startD : Int) (c : String) : Option Obs :=
  (df.filter (fun r => startD ≤ r.date ∧ r.date ≤ startD)).find? (fun r => r.clsId = c)

/-- Embedding of `calc_change(df_full, start_date, end_date)` from `main.py`:
empty result when either slice is empty; otherwise one row per region code of
the full frame, substituting `0` for a missing start or end value, with
`((b - a) / a) * 100 if a != 0 else 0`. -/
def calc_change (df : List Obs) (startD endD : Int) : List ResRow :=
  let df_e := df.filter (fun r => startD ≤ r.date ∧ r.date ≤ endD)
  let df_s := df.filter (fun r => startD ≤ r.date ∧ r.date ≤ startD)
  if df_e.isEmpty || df_s.isEmpty then []
  else
    (uniqueKeys (df.map (·.clsId))).map (fun c =>
      let b := ((sel_end df startD endD c).map (·.val)).getD 0
      let a := ((sel_start df startD c).map (·.val)).getD 0
      ⟨c, if a ≠ 0 then (b - a) / a * 100 else 0⟩)

/-- The map produced by `create_choropleth_map`: in the `min_val == max_val`
branch the code assigns `color_scale = ['#FFFFFF']` and attaches no
choropleth layer to the map (the variable is never used afterwards); in the
other branch it attaches an `RdYlGn` choropleth over the observed range. -/
inductive MapLayer where
  | emptyMap : List String → MapLayer
  | choropleth : ℚ → ℚ → MapLayer
  deriving DecidableEq

/-- Pandas `Series.min()` over a nonempty numeric column. -/
def colMin : List ℚ → ℚ
  | [] => 0
  | x :: xs => xs.foldl min x

/-- Pandas `Series.max()` over a nonempty numeric column. -/
def colMax : List ℚ → ℚ
  | [] => 0
  | x :: xs => xs.foldl max x

/-- Embedding of `create_choropleth_map(df, geojson_data)` from `main.py`:
`None` when the frame is empty or the geojson failed to load; otherwise the
degenerate single-white-color branch when `min == max`, else the `RdYlGn`
choropleth over `[min, max]`. -/
def create_choropleth_map (rates : List ℚ) (geoLoaded : Bool) : Option MapLayer :=
  if rates.isEmpty || !geoLoaded then none
  else
    if colMin rates = colMax rates then some (.emptyMap [("#FFFFFF")])
    else some (.choropleth (colMin rates) (colMax rates))

end MainApp

/-- Observable top-level events of either Streamlit script, in program
order. -/
inductive Ev where
  | fetch : Ev
  | noData : Ev
  | inputError : Ev
  | compute : Ev
  | render : Ev
  deriving DecidableEq

namespace MainApp

/-- Control flow of `main.py`'s top level: `load_and_process_data` performs
its (date-independent) bulk fetch first; an empty frame shows the no-data
notice; otherwise `start > end` is rejected with a user input error before
`calc_change` runs; otherwise the change is computed and the map rendered. -/
def app_events (dfEmpty : Bool) (startD endD : Int) : List Ev :=
  Ev.fetch :: (if dfEmpty then [Ev.noData]
    else if startD > endD then [Ev.inputError]
    else [Ev.compute, Ev.render])

end MainApp

namespace StApp

/-- Control flow of the streamlit `__main__` block: after the date widgets,
`cached_fetch` runs unconditionally (its start month comes from the start
input), an empty frame shows the error notice, and otherwise `calc_change`
and the map run — the script never compares the two input dates. -/
def app_events (dfEmpty : Bool) (startD endD : Int) : List Ev :=
  Ev.fetch :: (if dfEmpty then [Ev.noData] else [Ev.compute, Ev.render])

end StApp

/-- Invariant of the `min(…, key=…)` fold: the result is no worse than the
seed, minimizes the key over the processed elements, and — unless it is the
seed itself — sits in the list strictly ahead of every element with an
equal or smaller position key. -/
theorem st_fold_spec (t : Int) (ds : List Int) (b : Int) :
    |StApp.st_fold t b ds - t| ≤ |b - t| ∧
    (∀ x ∈ ds, |StApp.st_fold t b ds - t| ≤ |x - t|) ∧
    (StApp.st_fold t b ds = b ∨
      ∃ l₁ l₂, ds = l₁ ++ StApp.st_fold t b ds :: l₂ ∧
        |StApp.st_fold t b ds - t| < |b - t| ∧
        ∀ x ∈ l₁, |StApp.st_fold t b ds - t| < |x - t|) := by
  induction ds generalizing b with
  | nil => exact ⟨le_refl _, by simp, Or.inl rfl⟩
  | cons x xs ih =>
    have hstep : StApp.st_fold t b (x :: xs) =
        StApp.st_fold t (if |x - t| < |b - t| then x else b) xs := rfl
    by_cases hx : |x - t| < |b - t|
    · rw [hstep, if_pos hx]
      obtain ⟨h1, h2, h3⟩ := ih x
      refine ⟨h1.trans hx.le, ?_, ?_⟩
      · intro y hy
        rcases List.mem_cons.mp hy with hy | hy
        · exact hy ▸ h1
        · exact h2 y hy
      · rcases h3 with h3 | ⟨l₁, l₂, heq, hlt, hall⟩
        · refine Or.inr ⟨[], xs, ?_, ?_, by simp⟩
          · simp [h3]
          · rw [h3]; exact hx
        · refine Or.inr ⟨x :: l₁, l₂, by rw [List.cons_append, ← heq], hlt.trans hx, ?_⟩
          intro y hy
          rcases List.mem_cons.mp hy with hy | hy
          · exact hy ▸ hlt
          · exact hall y hy
    · rw [hstep, if_neg hx]
      obtain ⟨h1, h2, h3⟩ := ih b
      refine ⟨h1, ?_, ?_⟩
      · intro y hy
        rcases List.mem_cons.mp hy with hy | hy
        · exact hy ▸ h1.trans (not_lt.mp hx)
        · exact h2 y hy
      · rcases h3 with h3 | ⟨l₁, l₂, heq, hlt, hall⟩
        · exact Or.inl h3
        · refine Or.inr ⟨x :: l₁, l₂, by rw [List.cons_append, ← heq], hlt, ?_⟩
          intro y hy
          rcases List.mem_cons.mp hy with hy | hy
          · exact hy ▸ hlt.trans_le (not_lt.mp hx)
          · exact hall y hy

/-- Claim C1 (amended): the streamlit `calc_change`'s date selection
(`min(df["날짜"], key=lambda x: abs(x - target))`, embedded as `st_sel`)
returns, for every nonempty date column and every target, a date of the
column that minimizes the absolute distance to the target, and it is the
first such date in column order (ties broken by first encounter).  The
`main.py` variant does not perform nearest-date selection — see the
counterexample. -/
theorem C1_nearest_date_selection (dates : List Int) (target : Int) (h : dates ≠ []) :
    ∃ d l₁ l₂, StApp.st_sel dates target = some d ∧ dates = l₁ ++ d :: l₂ ∧
      (∀ x ∈ l₁, |d - target| < |x - target|) ∧
      (∀ x ∈ dates, |d - target| ≤ |x - target|) := by
  match dates, h with
  | d₀ :: ds, _ =>
    obtain ⟨h1, h2, h3⟩ := st_fold_spec target ds d₀
    refine ⟨StApp.st_fold target d₀ ds, ?_⟩
    have hmin : ∀ x ∈ d₀ :: ds, |StApp.st_fold target d₀ ds - target| ≤ |x - target| := by
      intro x hx
      rcases List.mem_cons.mp hx with hx | hx
      · exact hx ▸ h1
      · exact h2 x hx
    rcases h3 with h3 | ⟨l₁, l₂, heq, hlt, hall⟩
    · exact ⟨[], ds, rfl, by simp [h3], by simp, hmin⟩
    · refine ⟨d₀ :: l₁, l₂, rfl, by rw [List.cons_append, ← heq], ?_, hmin⟩
      intro x hx
      rcases List.mem_cons.mp hx with hx | hx
      · exact hx ▸ hlt
      · exact hall x hx

/-- Claim C1 witness: on the column `[3, 7]` with target `5`, the selection
picks `3` — the first of the two equally distant dates. -/
theorem C1_witness :
    ∃ d l₁ l₂, StApp.st_sel [3, 7] 5 = some d ∧ ([3, 7] : List Int) = l₁ ++ d :: l₂ ∧
      (∀ x ∈ l₁, |d - 5| < |x - 5|) ∧
      (∀ x ∈ ([3, 7] : List Int), |d - 5| ≤ |x - 5|) :=
  C1_nearest_date_selection [3, 7] 5 (by decide)

/-- Claim C1 counterexample: `main.py`'s `calc_change` on the series
`[("A", date 10, 1), ("A", date 20, 2)]` with targets `(10, 20)` selects, as
the end observation, the first in-range row — dated `10` — although date
`20` of the series is strictly closer to the target `20`; the resulting
change is `0`% instead of the `100`% a nearest-end selection would give. -/
theorem C1_counterexample :
    (MainApp.sel_end [⟨"A", 10, 1⟩, ⟨"A", 20, 2⟩] 10 20 ("A")).map MainApp.Obs.date
        = some 10 ∧
    ¬ |(10 : Int) - 20| ≤ |(20 : Int) - 20| ∧
    MainApp.calc_change [⟨"A", 10, 1⟩, ⟨"A", 20, 2⟩] 10 20 = [⟨"A", 0⟩] := by
  refine ⟨by decide, by decide, ?_⟩
  simp +decide [MainApp.calc_change, MainApp.sel_end, MainApp.sel_start, uniqueKeys]

/-- Claim C6: the streamlit Color Mapper is monotonic — for two change
values `v₁ < v₂` inside the observed `[min, max]` range, the position of
`v₁`'s color on the red→green ramp is at most that of `v₂`'s color. -/
theorem C6_colormap_monotone (minV maxV v₁ v₂ : ℚ)
    (h₁ : minV ≤ v₁) (h₂ : v₁ < v₂) (h₃ : v₂ ≤ maxV) :
    StApp.create_colormap minV maxV v₁ ≤ StApp.create_colormap minV maxV v₂ := by
  have hlt : minV < maxV := lt_of_le_of_lt h₁ (lt_of_lt_of_le h₂ h₃)
  simp only [StApp.create_colormap, if_neg hlt.ne]
  have hpos : 0 < maxV - minV := sub_pos.mpr hlt
  exact (div_le_div_iff_of_pos_right hpos).mpr (by linarith)

/-- Claim C6 witness: positions for `2 < 3` over the range `[0, 10]`. -/
theorem C6_witness : StApp.create_colormap 0 10 2 ≤ StApp.create_colormap 0 10 3 :=
  C6_colormap_monotone 0 10 2 3 (by norm_num) (by norm_num) (by norm_num)

/-- Claim C5 (amended): with `min == max` neither variant divides by zero —
the streamlit mapper sends every value to one and the same color, namely
position `0` of the ramp (matplotlib's degenerate `Normalize` branch), and
`main.py` takes its explicit branch, producing a map with the single color
list `['#FFFFFF']` and no choropleth layer. -/
theorem C5_degenerate_single_color :
    (∀ m v w : ℚ, StApp.create_colormap m m v = StApp.create_colormap m m w ∧
      StApp.create_colormap m m v = 0) ∧
    (∀ rates : List ℚ, rates ≠ [] → MainApp.colMin rates = MainApp.colMax rates →
      MainApp.create_choropleth_map rates true
        = some (MainApp.MapLayer.emptyMap [("#FFFFFF")])) := by
  constructor
  · intro m v w
    simp [StApp.create_colormap]
  · intro rates hne heq
    match rates, hne with
    | x :: xs, _ =>
      simp [MainApp.create_choropleth_map, heq]

/-- Claim C5 witness: concrete degenerate instances of both parts. -/
theorem C5_witness :
    (StApp.create_colormap 4 4 9 = StApp.create_colormap 4 4 1 ∧
      StApp.create_colormap 4 4 9 = 0) ∧
    MainApp.create_choropleth_map [2, 2] true
      = some (MainApp.MapLayer.emptyMap [("#FFFFFF")]) :=
  ⟨C5_degenerate_single_color.1 4 9 1,
    C5_degenerate_single_color.2 [2, 2] (by decide)
      (by simp [MainApp.colMin, MainApp.colMax])⟩

/-- Claim C5 counterexample: in the degenerate case the streamlit mapper
colors every value at ramp position `0` — the red extreme, the same position
the minimum gets on a nondegenerate scale — and not the neutral midpoint
`1/2` (yellow) of the diverging red–yellow–green ramp, so the mapped color is
not a neutral one. -/
theorem C5_counterexample :
    StApp.create_colormap 5 5 7 = 0 ∧ StApp.create_colormap 5 5 3 = 0 ∧
    StApp.create_colormap 0 10 0 = 0 ∧ StApp.create_colormap 0 10 5 = 1 / 2 ∧
    (0 : ℚ) ≠ 1 / 2 := by
  refine ⟨?_, ?_, ?_, ?_, by norm_num⟩ <;> norm_num [StApp.create_colormap]

/-- Claim C8 (amended): `main.py` rejects `start > end` after its single,
date-independent bulk fetch but before any change computation, surfacing a
user input error; the streamlit variant performs no such validation. -/
theorem C8_main_validates_dates (startD endD : Int) (h : startD > endD) :
    MainApp.app_events false startD endD = [Ev.fetch, Ev.inputError] ∧
    Ev.compute ∉ MainApp.app_events false startD endD := by
  constructor
  · simp [MainApp.app_events, h]
  · simp [MainApp.app_events, h]

/-- Claim C8 witness: the concrete invalid range `7 > 3`. -/
theorem C8_witness :
    MainApp.app_events false 7 3 = [Ev.fetch, Ev.inputError] ∧
    Ev.compute ∉ MainApp.app_events false 7 3 :=
  C8_main_validates_dates 7 3 (by decide)

/-- Claim C8 counterexample: the streamlit script, given start `100` after
end `50` and a nonempty frame, still fetches and computes — no user input
error is surfaced and nothing is rejected before the fetch. -/
theorem C8_counterexample :
    ((100 : Int) > 50) ∧
    StApp.app_events false 100 50 = [Ev.fetch, Ev.compute, Ev.render] ∧
    Ev.inputError ∉ StApp.app_events false 100 50 ∧
    Ev.fetch ∈ StApp.app_events false 100 50 := by decide

/-- Claim C2 (amended): with selected start value `a` and end value `b`, the
`main.py` calculator returns the exact, unrounded `(b − a)/a × 100` when
`a ≠ 0` and `0` by policy when `a = 0`, while the streamlit calculator
returns `round((b − a)/a × 100, 2)` when `a ≠ 0` and, having no zero guard,
a non-finite float (modelled `none`) when `a = 0`.  Shown on a two-row
series observed at dates `0` and `1`. -/
theorem C2_change_formula (a b : ℚ) (nm : String) :
    MainApp.calc_change [⟨"A", 1, b⟩, ⟨"A", 0, a⟩] 0 1 =
      [⟨"A", if a ≠ 0 then (b - a) / a * 100 else 0⟩] ∧
    StApp.calc_change [⟨0, "A", nm, a⟩, ⟨1, "A", nm, b⟩] 0 1 =
      some [⟨"A", nm, round2 a, round2 b,
        if a = 0 then none else some (round2 ((b - a) / a * 100))⟩] := by
  constructor
  · simp +decide [MainApp.calc_change, MainApp.sel_end, MainApp.sel_start, uniqueKeys]
  · simp +decide [StApp.calc_change, StApp.st_sel, StApp.st_fold, uniqueKeys, mapOpt]

/-- Claim C2 counterexample: the claim requires the computed change to equal
`round((b − a)/a × 100, 2)`; `main.py`'s calculator on start value `3`, end
value `4` returns the unrounded `100/3`, which differs from the rounded
`33.33`. -/
theorem C2_counterexample :
    MainApp.calc_change [⟨"A", 5, 4⟩, ⟨"A", 0, 3⟩] 0 5 = [⟨"A", 100 / 3⟩] ∧
    round2 ((4 - 3) / 3 * 100) = 3333 / 100 ∧
    (100 / 3 : ℚ) ≠ 3333 / 100 := by
  refine ⟨?_, ?_, by norm_num⟩
  · simp +decide [MainApp.calc_change, MainApp.sel_end, MainApp.sel_start, uniqueKeys]
    norm_num
  · rw [round2, round_eq]
    norm_num

/-- Each string is in `uniqueKeys l` exactly when it is in `l`. -/
theorem uniqueKeys_mem (l : List String) (c : String) : c ∈ uniqueKeys l ↔ c ∈ l := by
  have haux : ∀ (l : List String) (acc : List String),
      c ∈ l.foldl (fun acc x => if x ∈ acc then acc else acc ++ [x]) acc ↔
        c ∈ acc ∨ c ∈ l := by
    intro l
    induction l with
    | nil => intro acc; simp
    | cons x xs ih =>
      intro acc
      rw [List.foldl_cons, ih]
      by_cases hx : x ∈ acc
      · rw [if_pos hx]
        constructor
        · rintro (h | h)
          · exact Or.inl h
          · exact Or.inr (List.mem_cons_of_mem x h)
        · rintro (h | h)
          · exact Or.inl h
          · rcases List.mem_cons.mp h with rfl | h
            · exact Or.inl hx
            · exact Or.inr h
      · rw [if_neg hx]
        constructor
        · rintro (h | h)
          · rcases List.mem_append.mp h with h | h
            · exact Or.inl h
            · exact Or.inr (List.mem_cons.mpr (Or.inl (List.mem_singleton.mp h)))
          · exact Or.inr (List.mem_cons_of_mem x h)
        · rintro (h | h)
          · exact Or.inl (List.mem_append.mpr (Or.inl h))
          · rcases List.mem_cons.mp h with rfl | h
            · exact Or.inl (List.mem_append.mpr (Or.inr (List.mem_singleton.mpr rfl)))
            · exact Or.inr h
  rw [uniqueKeys, haux]
  simp

/-- Every element of a successful `mapOpt` run comes from some input element. -/
theorem mapOpt_mem {α β : Type} (f : α → Option β) (l : List α) (bs : List β)
    (h : mapOpt f l = some bs) : ∀ b ∈ bs, ∃ a ∈ l, f a = some b := by
  induction l generalizing bs with
  | nil =>
    simp only [mapOpt, Option.some_inj] at h
    subst h
    simp
  | cons a as ih =>
    intro b hb
    rw [mapOpt] at h
    cases hfa : f a with
    | none => rw [hfa] at h; exact absurd h (by simp)
    | some b₀ =>
      rw [hfa] at h
      obtain ⟨bs', hbs', rfl⟩ := Option.map_eq_some'.mp h
      rcases List.mem_cons.mp hb with rfl | hb
      · exact ⟨a, List.mem_cons_self a as, hfa⟩
      · obtain ⟨a', ha', hfa'⟩ := ih bs' hbs' b hb
        exact ⟨a', List.mem_cons_of_mem a ha', hfa'⟩

/-- When every key's image under `f` carries that key (projection `g`), a
successful `mapOpt` run reproduces the key list. -/
theorem mapOpt_map_keys {α β : Type} (f : α → Option β) (g : β → α) (l : List α)
    (bs : List β) (h : mapOpt f l = some bs) (hg : ∀ a b, f a = some b → g b = a) :
    bs.map g = l := by
  induction l generalizing bs with
  | nil =>
    simp only [mapOpt, Option.some_inj] at h
    subst h
    rfl
  | cons a as ih =>
    rw [mapOpt] at h
    cases hfa : f a with
    | none => rw [hfa] at h; exact absurd h (by simp)
    | some b₀ =>
      rw [hfa] at h
      obtain ⟨bs', hbs', rfl⟩ := Option.map_eq_some'.mp h
      rw [List.map_cons, hg a b₀ hfa, ih bs' hbs']

/-- If the mapped keys of a list are pairwise distinct, filtering the list on
any fixed key yields at most one element. -/
theorem filter_key_len_le_one {α : Type} (f : α → String) (l : List α)
    (hl : (l.map f).Nodup) (x : String) :
    (l.filter (fun r => f r = x)).length ≤ 1 := by
  induction l with
  | nil => simp
  | cons r rs ih =>
    rw [List.map_cons, List.nodup_cons] at hl
    by_cases hr : f r = x
    · rw [List.filter_cons_of_pos (by simp [hr])]
      have hnil : rs.filter (fun r => f r = x) = [] := by
        rw [List.filter_eq_nil_iff]
        intro o ho hox
        exact hl.1 (hr ▸ (by simpa using hox) ▸ List.mem_map_of_mem f ho)
      rw [hnil]
      simp
    · rw [List.filter_cons_of_neg (by simp [hr])]
      exact ih hl.2

/-- A feature whose name matches at most one result row contributes exactly
one merged row. -/
theorem merge_one_length (res : List StApp.StRow) (g : StApp.GeoFeat)
    (h : (res.filter (fun r => r.clsNm = g.name)).length ≤ 1) :
    (StApp.merge_one res g).length = 1 := by
  rw [StApp.merge_one]
  cases hm : res.filter (fun r => r.clsNm = g.name) with
  | nil => rfl
  | cons m ms =>
    rw [hm] at h
    simp only [List.length_cons] at h
    have hms : ms = [] := List.eq_nil_of_length_eq_zero (by omega)
    subst hms
    rfl

/-- `find?` returns the first element satisfying the predicate: everything
ahead of it in the list fails the predicate. -/
theorem find?_first_split {α : Type} (p : α → Bool) (l : List α) (x : α)
    (h : l.find? p = some x) :
    ∃ l₁ l₂, l = l₁ ++ x :: l₂ ∧ p x = true ∧ ∀ q ∈ l₁, p q = false := by
  induction l with
  | nil => exact absurd h (by simp)
  | cons a as ih =>
    cases hpa : p a with
    | true =>
      rw [List.find?_cons_of_pos _ hpa, Option.some_inj] at h
      exact ⟨[], as, by simp [h], h ▸ hpa, by simp⟩
    | false =>
      rw [List.find?_cons_of_neg _ (by simp [hpa])] at h
      obtain ⟨l₁, l₂, heq, hx, hall⟩ := ih h
      refine ⟨a :: l₁, l₂, by rw [List.cons_append, heq], hx, ?_⟩
      intro q hq
      rcases List.mem_cons.mp hq with rfl | hq
      · exact hpa
      · exact hall q hq

/-- Claim C4 (amended): the pandas left merge emits one output row per
matching (feature, result) pair, so a feature matched by several result rows
is duplicated rather than getting a single winner; whenever the result rows'
region names are pairwise distinct, every feature contributes exactly one
merged row and matches at most one result row.  The click drill-down match
loop does pick the first table entry whose name suffix-matches the clicked
name. -/
theorem C4_join_uniqueness :
    (∀ (geo : List StApp.GeoFeat) (res : List StApp.StRow),
      (res.map (fun r => r.clsNm)).Nodup →
      (StApp.merge_geo_data geo res).length = geo.length ∧
      ∀ g ∈ geo, (res.filter (fun r => r.clsNm = g.name)).length ≤ 1) ∧
    (∀ (tbl : List (String × String)) (clicked c : String),
      StApp.find_matched_code tbl clicked = some c →
      ∃ l₁ p l₂, tbl = l₁ ++ p :: l₂ ∧ p.1 = c ∧
        StApp.ends_with p.2 (StApp.strip clicked) = true ∧
        ∀ q ∈ l₁, StApp.ends_with q.2 (StApp.strip clicked) = false) := by
  constructor
  · intro geo res hnd
    have hle : ∀ g : StApp.GeoFeat,
        (res.filter (fun r => r.clsNm = g.name)).length ≤ 1 := by
      intro g
      exact filter_key_len_le_one (fun r => r.clsNm) res hnd g.name
    refine ⟨?_, fun g _ => hle g⟩
    induction geo with
    | nil => rfl
    | cons g gs ih =>
      rw [StApp.merge_geo_data, List.flatMap_cons, List.length_append,
        merge_one_length res g (hle g), ← StApp.merge_geo_data, ih, List.length_cons]
      omega
  · intro tbl clicked c h
    obtain ⟨p, hp, hpc⟩ := Option.map_eq_some'.mp h
    obtain ⟨l₁, l₂, heq, hpx, hall⟩ := find?_first_split _ tbl p hp
    exact ⟨l₁, p, l₂, heq, hpc, hpx, hall⟩

/-- Claim C4 witness: a one-feature, one-result merge attaches exactly one
row, and the drill-down on the table `[("11", "Seoul X"), ("26", "Busan Y")]`
clicked with `"X"` picks `"11"`, the first suffix match. -/
theorem C4_witness :
    ((StApp.merge_geo_data [⟨"A"⟩] [⟨"c1", "A", 1, 2, some 5⟩]).length = 1 ∧
      ∀ g ∈ ([⟨"A"⟩] : List StApp.GeoFeat),
        (([⟨"c1", "A", 1, 2, some 5⟩] : List StApp.StRow).filter
          (fun r => r.clsNm = g.name)).length ≤ 1) ∧
    ∃ l₁ p l₂, ([("11", "Seoul X"), ("26", "Busan Y")] : List (String × String))
        = l₁ ++ p :: l₂ ∧ p.1 = ("11") ∧
      StApp.ends_with p.2 (StApp.strip ("X")) = true ∧
      ∀ q ∈ l₁, StApp.ends_with q.2 (StApp.strip ("X")) = false :=
  ⟨C4_join_uniqueness.1 [⟨"A"⟩] [⟨"c1", "A", 1, 2, some 5⟩] (by decide),
    C4_join_uniqueness.2 [("11", "Seoul X"), ("26", "Busan Y")] ("X") ("11") (by decide)⟩

/-- Claim C4 counterexample: with two result rows both named `"A"`, the
pandas left merge attaches a change row twice to the single feature `"A"`
(two merged rows, both with an attachment), refuting "at most one change
result per feature, first match wins". -/
theorem C4_counterexample :
    ((StApp.merge_geo_data [⟨"A"⟩]
        [⟨"c1", "A", 1, 2, some 5⟩, ⟨"c2", "A", 1, 3, some 7⟩]).filter
      (fun m => m.res.isSome)).length = 2 := by decide

/-- Every row of a successful streamlit `calc_change` run is keyed by a
region that has an observation at the selected start date. -/
theorem calc_change_row_keys (df : List SRow) (sT eT s e : Int)
    (rows : List StApp.StRow)
    (hs : StApp.st_sel (df.map (fun r => r.date)) sT = some s)
    (he : StApp.st_sel (df.map (fun r => r.date)) eT = some e)
    (hcalc : StApp.calc_change df sT eT = some rows) :
    ∀ r ∈ rows, ∃ o ∈ df, o.date = s ∧ o.clsId = r.clsId := by
  intro r hr
  rw [StApp.calc_change, hs, he] at hcalc
  obtain ⟨c', hc', hfc'⟩ := mapOpt_mem _ _ _ hcalc r hr
  have hrc : r.clsId = c' := by
    rcases hfs : (df.filter (fun x => x.date = s)).find? (fun x => x.clsId = c') with _ | rs
    · simp only [hfs] at hfc'
      exact absurd hfc' (by simp)
    · rcases hfe : (df.filter (fun x => x.date = e)).find? (fun x => x.clsId = c') with _ | re
      · simp only [hfs, hfe] at hfc'
        exact absurd hfc' (by simp)
      · simp only [hfs, hfe, Option.some_inj] at hfc'
        rw [← hfc']
  rw [uniqueKeys_mem] at hc'
  obtain ⟨o, ho, hoc⟩ := List.mem_map.mp hc'
  rw [List.mem_filter] at ho
  exact ⟨o, ho.1, by simpa using ho.2, by rw [hoc, hrc]⟩

/-- Claim C3 (amended): a region with no observation at the selected start
date is excluded from the streamlit result set; the `main.py` variant
instead keeps every region of the frame and substitutes `0` for missing
start/end values, so a region with no in-range observation gets change `0`.
However (see the counterexample) a region that has a start observation but
no observation at the selected end date makes the streamlit calculator fail
with `IndexError` rather than being excluded. -/
theorem C3_missing_region_handling :
    (∀ (df : List SRow) (sT eT : Int) (rows : List StApp.StRow) (c : String),
      StApp.calc_change df sT eT = some rows →
      (∀ o ∈ df, o.clsId = c → StApp.st_sel (df.map (fun r => r.date)) sT ≠ some o.date) →
      ∀ r ∈ rows, r.clsId ≠ c) ∧
    (∀ (df : List MainApp.Obs) (sD eD : Int) (c : String),
      MainApp.calc_change df sD eD ≠ [] → c ∈ df.map (fun r => r.clsId) →
      ∃ r ∈ MainApp.calc_change df sD eD, r.clsId = c) ∧
    (∀ (df : List MainApp.Obs) (sD eD : Int) (c : String),
      (∀ o ∈ df, o.clsId = c → ¬(sD ≤ o.date ∧ o.date ≤ eD)) →
      ∀ r ∈ MainApp.calc_change df sD eD, r.clsId = c → r.rate = 0) := by
  refine ⟨?_, ?_, ?_⟩
  · intro df sT eT rows c hcalc hno r hr hrc
    cases hs : StApp.st_sel (df.map (fun r => r.date)) sT with
    | none => rw [StApp.calc_change, hs] at hcalc; exact absurd hcalc (by simp)
    | some s =>
      cases he : StApp.st_sel (df.map (fun r => r.date)) eT with
      | none => rw [StApp.calc_change, hs, he] at hcalc; exact absurd hcalc (by simp)
      | some e =>
        obtain ⟨o, ho, hod, hoc⟩ := calc_change_row_keys df sT eT s e rows hs he hcalc r hr
        exact hno o ho (by rw [hoc, hrc]) (by rw [hod, hs])
  · intro df sD eD c hne hmem
    by_cases hcond : ((df.filter (fun r => sD ≤ r.date ∧ r.date ≤ eD)).isEmpty ||
        (df.filter (fun r => sD ≤ r.date ∧ r.date ≤ sD)).isEmpty) = true
    · exact absurd (by rw [MainApp.calc_change]; rw [if_pos hcond]) hne
    · have hkeys : c ∈ uniqueKeys (df.map (fun r => r.clsId)) :=
        (uniqueKeys_mem _ c).mpr hmem
      rw [MainApp.calc_change, if_neg hcond]
      exact ⟨_, List.mem_map_of_mem _ hkeys, rfl⟩
  · intro df sD eD c hno r hr hrc
    by_cases hcond : ((df.filter (fun r => sD ≤ r.date ∧ r.date ≤ eD)).isEmpty ||
        (df.filter (fun r => sD ≤ r.date ∧ r.date ≤ sD)).isEmpty) = true
    · rw [MainApp.calc_change, if_pos hcond] at hr
      exact absurd hr (by simp)
    · rw [MainApp.calc_change, if_neg hcond] at hr
      obtain ⟨c', hc', hcr⟩ := List.mem_map.mp hr
      have hcc : c' = c := by rw [← hrc, ← hcr]
      subst hcc
      have hend : MainApp.sel_end df sD eD c' = none := by
        rw [MainApp.sel_end]
        cases hfe : (df.filter (fun r => sD ≤ r.date ∧ r.date ≤ eD)).find?
            (fun r => r.clsId = c') with
        | none => rfl
        | some o =>
          have ho := List.find?_some hfe
          have homem := List.mem_filter.mp (List.mem_of_find?_eq_some hfe)
          exact absurd (by simpa using homem.2)
            (hno o homem.1 (by simpa using ho))
      have hstart : MainApp.sel_start df sD c' = none := by
        rw [MainApp.sel_start]
        cases hfs : (df.filter (fun r => sD ≤ r.date ∧ r.date ≤ sD)).find?
            (fun r => r.clsId = c') with
        | none => rfl
        | some o =>
          have ho := List.find?_some hfs
          have homem := List.mem_filter.mp (List.mem_of_find?_eq_some hfs)
          have hdo : sD ≤ o.date ∧ o.date ≤ sD := by simpa using homem.2
          have hseD : sD ≤ eD := by
            by_contra hse
            have : df.filter (fun r => sD ≤ r.date ∧ r.date ≤ eD) = [] := by
              rw [List.filter_eq_nil_iff]
              intro x _ hx
              have hx' : sD ≤ x.date ∧ x.date ≤ eD := by simpa using hx
              omega
            rw [this] at hcond
            simp at hcond
          exact absurd ⟨hdo.1, le_trans hdo.2 hseD⟩
            (hno o homem.1 (by simpa using ho))
      rw [← hcr]
      simp only [hend, hstart, Option.map_none', Option.getD_none]
      norm_num

/-- Claim C3 witness: concrete instances of all three parts — a region
with no start-date observation is absent from a successful streamlit run,
and `main.py` keeps every region, with `0` change for an out-of-window
region. -/
theorem C3_witness :
    (∀ r ∈ ([⟨"A", "nA", round2 1, round2 2,
        if (1 : ℚ) = 0 then none
        else some (round2 (((2 : ℚ) - 1) / 1 * 100))⟩] : List StApp.StRow),
      r.clsId ≠ ("B")) ∧
    (∃ r ∈ MainApp.calc_change [⟨"A", 0, 1⟩] 0 0, r.clsId = ("A")) ∧
    (∀ r ∈ MainApp.calc_change [⟨"A", 0, 1⟩] 5 9, r.clsId = ("A") → r.rate = 0) :=
  ⟨C3_missing_region_handling.1
      [⟨0, "A", "nA", 1⟩, ⟨5, "A", "nA", 2⟩, ⟨9, "B", "nB", 7⟩] 0 5
      [⟨"A", "nA", round2 1, round2 2,
        if (1 : ℚ) = 0 then none
        else some (round2 (((2 : ℚ) - 1) / 1 * 100))⟩] ("B") rfl (by decide),
    C3_missing_region_handling.2.1 [⟨"A", 0, 1⟩] 0 0 ("A") (by decide) (by decide),
    C3_missing_region_handling.2.2 [⟨"A", 0, 1⟩] 5 9 ("A") (by decide)⟩

/-- Claim C3 counterexample: region `"B"` has an observation at the selected
start date `0` but none at the selected end date `5`; the streamlit
calculator neither excludes it nor substitutes — the whole computation fails
(`IndexError` on `.iloc[0]`, modelled `none`). -/
theorem C3_counterexample :
    StApp.calc_change [⟨0, "A", "nA", 1⟩, ⟨0, "B", "nB", 1⟩, ⟨5, "A", "nA", 2⟩] 0 5
        = none ∧
    (⟨0, "B", "nB", (1 : ℚ)⟩ : SRow) ∈
      ([⟨0, "A", "nA", 1⟩, ⟨0, "B", "nB", 1⟩, ⟨5, "A", "nA", 2⟩] : List SRow) ∧
    StApp.st_sel [0, 0, 5] 0 = some 0 ∧ StApp.st_sel [0, 0, 5] 5 = some 5 := by decide

/-- Claim C7: a `(region, month)` fetch that fails — exception (network
error, timeout, malformed response), non-200 status, or empty result set —
yields no observation at all, and every row the Batch Collector hands
downstream originates from a task whose fetch succeeded; no exception
escapes (the embedding is a total function into lists). -/
theorem C7_fetch_failures_dropped :
    (∀ (c : String) (y : Int), fetch_index c y FetchOutcome.exn = none) ∧
    (∀ (c : String) (y : Int) (code : Nat) (rows : List ApiRow),
      code ≠ 200 → fetch_index c y (FetchOutcome.ok code rows) = none) ∧
    (∀ (c : String) (y : Int) (code : Nat),
      fetch_index c y (FetchOutcome.ok code []) = none) ∧
    (∀ (cls_ids : List String) (sM eM : Int) (nameMap : String → Option String)
      (outcome : String → Int → FetchOutcome),
      ∀ r ∈ batch_fetch cls_ids sM eM nameMap outcome,
        ∃ t ∈ fetch_tasks cls_ids sM eM, ∃ obs,
          fetch_index t.1 t.2 (outcome t.1 t.2) = some obs ∧
          r.date = obs.date ∧ r.clsId = obs.clsId ∧ r.val = obs.val ∧
          nameMap obs.clsId = some r.clsNm) := by
  refine ⟨fun c y => rfl, ?_, ?_, ?_⟩
  · intro c y code rows h
    simp [fetch_index, h]
  · intro c y code
    by_cases h : code = 200 <;> simp [fetch_index, h]
  · intro cls_ids sM eM nameMap outcome r hr
    rw [batch_fetch] at hr
    obtain ⟨fr, hfr, hmapped⟩ := List.mem_filterMap.mp hr
    obtain ⟨t, ht, hft⟩ := List.mem_filterMap.mp hfr
    obtain ⟨nm, hnm, hrow⟩ := Option.map_eq_some'.mp hmapped
    refine ⟨t, ht, fr, hft, ?_, ?_, ?_, ?_⟩ <;> rw [← hrow]
    exact hnm

/-- A concrete one-entry code→name table for the collector witnesses. -/
def demoNameMap : String → Option String :=
  fun c => if c = ("11") then some ("Seoul") else none

/-- A network behaviour that answers every request with status 200 and a
single row. -/
def demoOutcome : String → Int → FetchOutcome :=
  fun _ _ => FetchOutcome.ok 200 [⟨"11", 3⟩]

/-- The single row collected from `demoOutcome` over one region and month. -/
def demoRow : SRow := ⟨0, "11", "Seoul", 3⟩

/-- Claim C7 witness: a 404 response is dropped, and the single collected
row of a one-task batch traces back to a successful fetch. -/
theorem C7_witness :
    fetch_index ("11") 0 (FetchOutcome.ok 404 [⟨"11", 3⟩]) = none ∧
    ∃ t ∈ fetch_tasks [("11")] 0 0, ∃ obs,
      fetch_index t.1 t.2 (demoOutcome t.1 t.2) = some obs ∧
      demoRow.date = obs.date ∧ demoRow.clsId = obs.clsId ∧ demoRow.val = obs.val ∧
      demoNameMap obs.clsId = some demoRow.clsNm :=
  ⟨C7_fetch_failures_dropped.2.1 ("11") 0 404 [⟨"11", 3⟩] (by decide),
    C7_fetch_failures_dropped.2.2.2 [("11")] 0 0 demoNameMap demoOutcome
      demoRow (by decide)⟩

/-- Claim C10: every row the Batch Collector hands downstream carries a
region code present in the code→name lookup table (its name column is the
table's entry), and a fetched observation whose code has no table entry is
dropped — no downstream row carries such a code. -/
theorem C10_rows_have_known_region
    (cls_ids : List String) (sM eM : Int) (nameMap : String → Option String)
    (outcome : String → Int → FetchOutcome) :
    (∀ r ∈ batch_fetch cls_ids sM eM nameMap outcome,
      nameMap r.clsId = some r.clsNm) ∧
    (∀ c : String, nameMap c = none →
      ∀ r ∈ batch_fetch cls_ids sM eM nameMap outcome, r.clsId ≠ c) := by
  have hmain : ∀ r ∈ batch_fetch cls_ids sM eM nameMap outcome,
      nameMap r.clsId = some r.clsNm := by
    intro r hr
    rw [batch_fetch] at hr
    obtain ⟨fr, _, hmapped⟩ := List.mem_filterMap.mp hr
    obtain ⟨nm, hnm, hrow⟩ := Option.map_eq_some'.mp hmapped
    rw [← hrow]
    exact hnm
  refine ⟨hmain, ?_⟩
  intro c hc r hr hrc
  have := hmain r hr
  rw [hrc, hc] at this
  exact absurd this (by simp)

/-- Claim C10 witness: the collected demo row's code is in the table, with
the table's name. -/
theorem C10_witness : demoNameMap demoRow.clsId = some demoRow.clsNm :=
  (C10_rows_have_known_region [("11")] 0 0 demoNameMap demoOutcome).1
    demoRow (by decide)

/-- A list whose pairs all satisfy a reflexive-on-the-list relation given by
a universal fact. -/
theorem pairwise_of_forall {α : Type} (P : α → α → Prop) (l : List α)
    (h : ∀ a b, P a b) : l.Pairwise P := by
  induction l with
  | nil => exact List.Pairwise.nil
  | cons x xs ih => exact List.Pairwise.cons (fun b _ => h x b) ih

/-- `period_range` is sorted ascending. -/
theorem period_range_sorted (s e : Int) : (period_range s e).Sorted (· ≤ ·) := by
  rw [period_range, List.Sorted, List.pairwise_map]
  refine List.Pairwise.imp ?_ (List.pairwise_lt_range _)
  intro a b h
  exact add_le_add_left (Int.ofNat_le.mpr h.le) s

/-- The month column of a months-major task list over a sorted month list is
sorted ascending. -/
theorem tasks_months_sorted (cls_ids : List String) (months : List Int)
    (hm : months.Sorted (· ≤ ·)) :
    ((months.flatMap (fun y => cls_ids.map (fun c => (c, y)))).map
      (fun t => t.2)).Sorted (· ≤ ·) := by
  induction months with
  | nil => simp [List.Sorted]
  | cons y ms ih =>
    rw [List.sorted_cons] at hm
    rw [List.flatMap_cons, List.map_append, List.Sorted, List.pairwise_append]
    refine ⟨?_, ih hm.2, ?_⟩
    · rw [List.map_map, List.pairwise_map]
      exact pairwise_of_forall _ _ (fun a b => le_refl y)
    · intro a ha b hb
      rw [List.map_map] at ha
      obtain ⟨c, _, rfl⟩ := List.mem_map.mp ha
      rw [List.mem_map] at hb
      obtain ⟨t, ht, rfl⟩ := hb
      rw [List.mem_flatMap] at ht
      obtain ⟨y', hy', htl⟩ := ht
      obtain ⟨c', _, rfl⟩ := List.mem_map.mp htl
      exact hm.1 y' hy'

/-- Mapping a projection over a `filterMap` that preserves that projection
yields a sublist of the input's projection column. -/
theorem filterMap_map_sublist {α β γ : Type} (f : α → Option β) (da : α → γ)
    (db : β → γ) (h : ∀ a b, f a = some b → db b = da a) (l : List α) :
    ((l.filterMap f).map db).Sublist (l.map da) := by
  induction l with
  | nil => simp
  | cons a as ih =>
    rw [List.filterMap_cons, List.map_cons]
    cases hfa : f a with
    | none => exact ih.trans (List.sublist_cons_self _ _)
    | some b =>
      rw [List.map_cons, h a b hfa]
      exact ih.cons₂ _

/-- A successful `fetch_index` reply is dated by the requested month. -/
theorem fetch_index_date (c : String) (y : Int) (o : FetchOutcome)
    (obs : FetchRow) (h : fetch_index c y o = some obs) : obs.date = y := by
  cases o with
  | exn => exact absurd h (by simp [fetch_index])
  | ok code rows =>
    by_cases hc : code = 200
    · subst hc
      cases rows with
      | nil => simp [fetch_index] at h
      | cons r rs =>
        have heq : fetch_index c y (FetchOutcome.ok 200 (r :: rs))
            = some ⟨y, r.clsId, r.dtaVal⟩ := rfl
        rw [heq, Option.some_inj] at h
        rw [← h]
    · simp [fetch_index, hc] at h

/-- Claim C9: for every region-code set, month range, lookup table and
network behaviour, the per-region series handed downstream by the Batch
Collector is sorted by date ascending — `executor.map` preserves the
months-major task order, so each region's dates appear in ascending month
order even though completion order is unconstrained. -/
theorem C9_series_sorted_by_date (cls_ids : List String) (sM eM : Int)
    (nameMap : String → Option String) (outcome : String → Int → FetchOutcome)
    (c : String) :
    (((batch_fetch cls_ids sM eM nameMap outcome).filter
        (fun r => r.clsId = c)).map (fun r => r.date)).Sorted (· ≤ ·) := by
  have h0 : ((fetch_tasks cls_ids sM eM).map (fun t => t.2)).Sorted (· ≤ ·) := by
    rw [fetch_tasks]
    exact tasks_months_sorted cls_ids (period_range sM eM) (period_range_sorted sM eM)
  have h1 : (((fetch_tasks cls_ids sM eM).filterMap
        (fun t => fetch_index t.1 t.2 (outcome t.1 t.2))).map
      (fun r => r.date)).Sublist ((fetch_tasks cls_ids sM eM).map (fun t => t.2)) :=
    filterMap_map_sublist _ _ _
      (fun t obs ht => fetch_index_date t.1 t.2 (outcome t.1 t.2) obs ht) _
  have h2 : ((batch_fetch cls_ids sM eM nameMap outcome).map
        (fun r => r.date)).Sublist
      ((((fetch_tasks cls_ids sM eM).filterMap
        (fun t => fetch_index t.1 t.2 (outcome t.1 t.2))).map (fun r => r.date))) := by
    rw [batch_fetch]
    refine filterMap_map_sublist _ _ _ ?_ _
    intro fr r hfr
    obtain ⟨nm, _, hrow⟩ := Option.map_eq_some'.mp hfr
    rw [← hrow]
  have h3 : (((batch_fetch cls_ids sM eM nameMap outcome).filter
        (fun r => r.clsId = c)).map (fun r => r.date)).Sublist
      ((batch_fetch cls_ids sM eM nameMap outcome).map (fun r => r.date)) :=
    (List.filter_sublist _).map _
  exact h0.sublist ((h3.trans h2).trans h1)

